import Mathlib

/-
Verification development for the zoom-runner resilient interaction engine
(src/prototype.ts together with its configuration and logging modules).

Strings of the JavaScript source are modelled as `List Char`.  The string
operations the engine uses (toLowerCase, trim, includes, replace with a
string pattern, template concatenation) are embedded below, restricted to
the ASCII alphabet the program manipulates.  Asynchronous surface calls
(element probes, chat polling, clicks) are modelled by explicit oracle
inputs describing what the live page would have answered; control flow is
translated statement by statement from the source.
-/

namespace ZoomRunner

/-- Whitespace test used by the model of the JavaScript trim operation
(space, tab, line feed, carriage return). -/
def isWsChar (c : Char) : Bool :=
  c == ' ' || c == '\t' || c == '\n' || c == '\r'

/-- ASCII case table: the 26 uppercase letters with their lowercase forms.
Models String.prototype.toLowerCase restricted to ASCII. -/
def lowerPairs : List (Char × Char) :=
  [('A', 'a'), ('B', 'b'), ('C', 'c'), ('D', 'd'), ('E', 'e'), ('F', 'f'),
   ('G', 'g'), ('H', 'h'), ('I', 'i'), ('J', 'j'), ('K', 'k'), ('L', 'l'),
   ('M', 'm'), ('N', 'n'), ('O', 'o'), ('P', 'p'), ('Q', 'q'), ('R', 'r'),
   ('S', 's'), ('T', 't'), ('U', 'u'), ('V', 'v'), ('W', 'w'), ('X', 'x'),
   ('Y', 'y'), ('Z', 'z')]

/-- Lowercase one character via the ASCII case table. -/
def toLowerChar (c : Char) : Char :=
  match lowerPairs.find? (fun p => p.1 == c) with
  | some p => p.2
  | none => c

/-- Model of `s.toLowerCase()`. -/
def lowerL (s : List Char) : List Char := s.map toLowerChar

/-- Drop leading whitespace. -/
def trimLeft (s : List Char) : List Char := s.dropWhile isWsChar

/-- Drop trailing whitespace. -/
def trimRightL (s : List Char) : List Char := (s.reverse.dropWhile isWsChar).reverse

/-- Model of `s.trim()`: drop whitespace at both ends. -/
def trimL (s : List Char) : List Char := trimRightL (trimLeft s)

/-- Reply token sent for ordinary messages (src/prototype.ts line 474). -/
def rogerText : List Char := "roger".toList

/-- Reply token sent when the bot is mentioned (src/prototype.ts line 468). -/
def dongText : List Char := "dong".toList

/-- The stop command checked at src/prototype.ts line 454. -/
def quitText : List Char := "quit".toList

/-- The literal default initial message the self filter compares against at
src/prototype.ts line 437.  Character code 39 is the apostrophe: the literal
is the eight characters of the default MESSAGE_TEXT. -/
def defaultMessageText : List Char := ['I', Char.ofNat 39, 'm', ' ', 'i', 'n', '.']

/-! ### URL rewriting (config module, toWebClientUrl) -/

/-- A parsed URL as the config module sees it: host, path and query of the
WHATWG URL object built at the start of toWebClientUrl. -/
structure ZUrl where
  host : List Char
  path : List Char
  query : List Char
deriving DecidableEq

/-- Model of `s.replace(pat, repl)` with a string pattern: replace the first
occurrence of `pat` (scanning left to right), or return the string unchanged
when there is no occurrence. -/
def replaceFirst (pat repl : List Char) : List Char → List Char
  | [] => if pat = [] then repl else []
  | c :: rest =>
    if pat <+: (c :: rest) then repl ++ (c :: rest).drop pat.length
    else c :: replaceFirst pat repl rest

/-- The web-client path segment. -/
def wcJoinSeg : List Char := "/wc/join/".toList

/-- The join-link path segment. -/
def jSeg : List Char := "/j/".toList

/-- Embedding of toWebClientUrl (config module): if the path already contains
the web-client segment, return the URL unchanged; otherwise, if it contains
the join segment, rewrite the first occurrence; otherwise return unchanged. -/
def toWebClientUrl (u : ZUrl) : ZUrl :=
  if wcJoinSeg <:+: u.path then u
  else if jSeg <:+: u.path then
    { u with path := replaceFirst jSeg wcJoinSeg u.path }
  else u

/-! ### Candidate resolution (findChatInputCandidates, src/prototype.ts 691-732;
the join-control scan at 178-216 has the same two-phase structure) -/

/-- Oracle for one candidate locator: `probeVisible` is the answer of the
parallel isVisible probe (probe errors are mapped to false by the attached
catch handler), `fallbackVisible` tells whether the sequential short
waitFor of the fallback phase would succeed. -/
structure CandidateProbe where
  probeVisible : Bool
  fallbackVisible : Bool
deriving DecidableEq

/-- Index of the first element satisfying `p`. -/
def firstIdx {α : Type} (p : α → Bool) : List α → Option Nat
  | [] => none
  | a :: l => if p a then some 0 else (firstIdx p l).map (fun n => n + 1)

/-- Embedding of findChatInputCandidates: scan the parallel visibility
results in list order and return the first visible index; only when none is
visible, scan again sequentially with the per-candidate wait, returning the
first success; otherwise none. -/
def findChatInputCandidates (cs : List CandidateProbe) : Option Nat :=
  match firstIdx (fun c => c.probeVisible) cs with
  | some k => some k
  | none => firstIdx (fun c => c.fallbackVisible) cs

/-! ### Admission detection (waitForAdmission, src/prototype.ts 218-299) -/

/-- Results of the six parallel indicator probes issued after join submit.
These probes carry no catch handler, so a rejected probe is filtered out of
the fulfilled results: `none` models a rejected probe, `some v` a fulfilled
probe answering `v`. -/
structure ProbeResults where
  leaveControl : Option Bool
  waitingText : Option Bool
  joinAudioControl : Option Bool
  participantsControl : Option Bool
  chatControl : Option Bool
  videoControl : Option Bool
deriving DecidableEq

/-- How many of the four in-meeting indicator controls (join-audio,
participants, chat, video) reported visible (src/prototype.ts 254-256). -/
def inMeetingVisibleCount (p : ProbeResults) : Nat :=
  ([p.joinAudioControl, p.participantsControl, p.chatControl, p.videoControl].filter
    (fun o => o == some true)).length

/-- Oracle for one lobby poll attempt: whether the leave control became
visible within the poll interval, and whether terminal-state text is visible
(the latter check carries a catch mapping errors to false). -/
structure LobbyAttempt where
  leaveVisible : Bool
  errorTextVisible : Bool
deriving DecidableEq

/-- Result of admission detection. -/
inductive AdmissionOutcome where
  | inMeeting
  | admitted (attempt : Nat)
  | meetingError (attempt : Nat)
  | lobbyTimeout
deriving DecidableEq

/-- The fixed lobby poll interval (src/prototype.ts line 271). -/
def pollIntervalMs : Nat := 1000

/-- Model of Math.ceil(lobbyTimeoutMs / pollInterval) from src/prototype.ts 272. -/
def maxAttemptsOf (lobbyTimeoutMs : Nat) : Nat :=
  (lobbyTimeoutMs + (pollIntervalMs - 1)) / pollIntervalMs

/-- The lobby poll loop (src/prototype.ts 274-295).  The second component of
the result counts executed attempts. -/
def lobbyLoop (att : Nat → LobbyAttempt) : Nat → Nat → AdmissionOutcome × Nat
  | 0, done => (AdmissionOutcome.lobbyTimeout, done)
  | fuel + 1, done =>
    let a := att (done + 1)
    if a.leaveVisible then (AdmissionOutcome.admitted (done + 1), done + 1)
    else if a.errorTextVisible then (AdmissionOutcome.meetingError (done + 1), done + 1)
    else lobbyLoop att fuel (done + 1)

/-- Embedding of waitForAdmission: if at least two of the four in-meeting
indicator controls are visible in the initial parallel probe, classify as in
meeting and return at once; otherwise run the lobby poll loop bounded by the
attempt budget.  The second component is the number of lobby poll iterations
executed. -/
def waitForAdmission (probe : ProbeResults) (att : Nat → LobbyAttempt)
    (lobbyTimeoutMs : Nat) : AdmissionOutcome × Nat :=
  if 2 ≤ inMeetingVisibleCount probe then (AdmissionOutcome.inMeeting, 0)
  else lobbyLoop att (maxAttemptsOf lobbyTimeoutMs) 0

/-! ### The chat monitor loop (monitorChatMessages, src/prototype.ts 372-497) -/

/-- One chat message as scraped by the polling evaluate call.  `name` and
`text` are the extracted sender and text.  The last two fields are oracles
for the best-effort reply dispatch attached to the message: whether the
chat input resolves when sendQuickReply runs for it, and whether the fill
and key press succeed (sendQuickReply catches both failure kinds). -/
structure ChatMessage where
  name : List Char
  text : List Char
  replyInputFound : Bool
  replySendOk : Bool
deriving DecidableEq

/-- The dedup key, the template literal of src/prototype.ts line 424:
sender name, a colon, then the text. -/
def messageKey (m : ChatMessage) : List Char := m.name ++ ':' :: m.text

/-- The same composite key built directly from a sender and a text. -/
def keyOf (s t : List Char) : List Char := s ++ ':' :: t

/-- The two reply tokens of the loop. -/
inductive ReplyToken where
  | dong
  | roger
deriving DecidableEq

/-- How a best-effort reply dispatch ended inside sendQuickReply. -/
inductive ReplyStatus where
  | sent
  | inputMissing
  | sendFailed
deriving DecidableEq

/-- Embedding of sendQuickReply (src/prototype.ts 499-517): if no chat input
resolves, log and return; otherwise fill and press, catching any failure.
Every outcome returns normally, no outcome escapes to the caller. -/
def sendQuickReply (inputFound sendOk : Bool) : ReplyStatus :=
  if inputFound then (if sendOk then ReplyStatus.sent else ReplyStatus.sendFailed)
  else ReplyStatus.inputMissing

/-- One dispatched reply: the message it answers, the token chosen, and how
the best-effort send ended. -/
structure Reply where
  toName : List Char
  toText : List Char
  token : ReplyToken
  status : ReplyStatus
deriving DecidableEq

/-- The configuration values the monitor loop reads: the bot display name
and the configured initial message text (ConfigSchema fields botName and
messageText). -/
structure MonitorConfig where
  botName : List Char
  messageText : List Char
deriving DecidableEq

/-- The self filter of src/prototype.ts 433-437: sender equals the bot name,
or the text equals one of the two reply tokens, or the text equals the
LITERAL default initial message (the code compares against the hardcoded
string, not against the configured messageText). -/
def isSelfMessage (cfg : MonitorConfig) (m : ChatMessage) : Prop :=
  m.name = cfg.botName ∨ m.text = rogerText ∨ m.text = dongText ∨
    m.text = defaultMessageText

instance (cfg : MonitorConfig) (m : ChatMessage) : Decidable (isSelfMessage cfg m) := by
  unfold isSelfMessage
  infer_instance

/-- The normalized text of src/prototype.ts line 453: lowercase then trim. -/
def normalizeText (t : List Char) : List Char := trimL (lowerL t)

/-- The token chosen at src/prototype.ts 460-461: dong when the normalized
text contains the lowercased bot name as a substring, roger otherwise. -/
def replyTokenFor (cfg : MonitorConfig) (m : ChatMessage) : ReplyToken :=
  if lowerL cfg.botName <:+: normalizeText m.text then ReplyToken.dong
  else ReplyToken.roger

/-- Result of processing one polled batch of messages: the seen-key set
after the batch, the replies dispatched for the batch in order, and whether
the stop command ended the loop inside the batch. -/
structure BatchResult where
  seen : List (List Char)
  replies : List Reply
  quit : Bool
deriving DecidableEq

/-- Embedding of the per-batch for loop (src/prototype.ts 423-476): for each
message in order, skip when its key was seen; otherwise mark seen, then skip
self messages; then return on the stop command without a reply and without
touching the rest of the batch; otherwise dispatch dong or roger. -/
def processBatch (cfg : MonitorConfig) :
    List (List Char) → List ChatMessage → BatchResult
  | seen, [] => ⟨seen, [], false⟩
  | seen, m :: rest =>
    if messageKey m ∈ seen then processBatch cfg seen rest
    else if isSelfMessage cfg m then processBatch cfg (messageKey m :: seen) rest
    else if normalizeText m.text = quitText then ⟨messageKey m :: seen, [], true⟩
    else
      let b := processBatch cfg (messageKey m :: seen) rest
      ⟨b.seen,
        ⟨m.name, m.text, replyTokenFor cfg m,
          sendQuickReply m.replyInputFound m.replySendOk⟩ :: b.replies,
        b.quit⟩

/-- One iteration of the monitor loop as seen from outside: the polling
evaluate either yields a scraped batch or throws. -/
inductive PollStep where
  | ok (msgs : List ChatMessage)
  | err
deriving DecidableEq

/-- Loop state: the seen-key set and the consecutive-error counter. -/
structure LoopState where
  seen : List (List Char)
  errs : Nat
deriving DecidableEq

/-- How a run of the loop over a finite trace of iterations ended: still
running (with the reached state), returned on the stop command, or threw
the fatal monitoring-failed error. -/
inductive MonitorOutcome where
  | pending (st : LoopState)
  | quitOutcome
  | fatal
deriving DecidableEq

/-- The error ceiling (src/prototype.ts line 379). -/
def maxConsecutiveErrors : Nat := 10

/-- Embedding of the while loop of monitorChatMessages over a finite trace
of poll iterations: a successful iteration processes its batch (returning
on the stop command) and resets the error counter; a failing iteration
increments the counter and throws the fatal error as soon as the counter
reaches the ceiling.  The replies of all executed iterations are collected
in order. -/
def monitorChatMessages (cfg : MonitorConfig) :
    LoopState → List PollStep → MonitorOutcome × List Reply
  | st, [] => (MonitorOutcome.pending st, [])
  | st, PollStep.ok msgs :: rest =>
    let b := processBatch cfg st.seen msgs
    if b.quit then (MonitorOutcome.quitOutcome, b.replies)
    else
      let r := monitorChatMessages cfg ⟨b.seen, 0⟩ rest
      (r.1, b.replies ++ r.2)
  | st, PollStep.err :: rest =>
    if maxConsecutiveErrors ≤ st.errs + 1 then (MonitorOutcome.fatal, [])
    else monitorChatMessages cfg ⟨st.seen, st.errs + 1⟩ rest

/-- Replace the reply-dispatch oracles of a message by successful ones,
leaving the message content untouched. -/
def eraseReplyOracle (m : ChatMessage) : ChatMessage := ⟨m.name, m.text, true, true⟩

/-- Lift the oracle replacement to one poll iteration. -/
def eraseStep : PollStep → PollStep
  | PollStep.ok msgs => PollStep.ok (msgs.map eraseReplyOracle)
  | PollStep.err => PollStep.err

/-- Number of replies answering the message pair `(s, t)`. -/
def countFor (s t : List Char) (rs : List Reply) : Nat :=
  rs.countP (fun r => r.toName == s && r.toText == t)

/-! ### Modal dismissal (dismissBlockingModals, src/prototype.ts 748-814) -/

/-- Oracles for one invocation of dismissBlockingModals, one per surface
call, in program order.  Four calls run without any catch handler and can
therefore reject into the caller: the initial overlay count query (line
752), the settle wait after the escape press (line 786), the re-query of
the overlay count (line 789), and the settle wait after force removal
(line 810) — `none` models a rejected count query, a false wait oracle a
rejected wait.  The dismiss clicks run under Promise.allSettled, the
escape press carries a catch, and the structural removal runs inside
try/catch: their outcomes are recorded but cannot influence whether the
call returns. -/
structure ModalEnv where
  initialCount : Option Nat
  dismissClickResults : List Bool
  escapeOk : Bool
  settleWaitOk : Bool
  remainingCount : Option Nat
  removeEvalOk : Bool
  removalWaitOk : Bool
deriving DecidableEq

/-- Actions attempted by dismissBlockingModals. -/
inductive ModalEvent where
  | dismissAttempt
  | escapeAttempt
  | forceRemoval
deriving DecidableEq

/-- The only way dismissBlockingModals can end abnormally: one of its four
surface calls outside any catch handler (an overlay count query or a timed
settle wait) rejects. -/
inductive ModalError where
  | surfaceFailure
deriving DecidableEq

/-- Embedding of dismissBlockingModals: query the overlay count (a
rejection propagates); zero returns at once with no action; otherwise
attempt the parallel dismiss clicks and the escape press (failures
swallowed), wait for the settle delay (a rejection propagates), re-query
the count (a rejection propagates), and when overlays remain force-remove
the portals (failures swallowed) followed by a second settle wait (a
rejection propagates). -/
def dismissBlockingModals (env : ModalEnv) : List ModalEvent × Option ModalError :=
  match env.initialCount with
  | none => ([], some ModalError.surfaceFailure)
  | some 0 => ([], none)
  | some (_ + 1) =>
    let evs := [ModalEvent.dismissAttempt, ModalEvent.escapeAttempt]
    if env.settleWaitOk then
      match env.remainingCount with
      | none => (evs, some ModalError.surfaceFailure)
      | some 0 => (evs, none)
      | some (_ + 1) =>
        if env.removalWaitOk then (evs ++ [ModalEvent.forceRemoval], none)
        else (evs ++ [ModalEvent.forceRemoval], some ModalError.surfaceFailure)
    else (evs, some ModalError.surfaceFailure)

/-! ### The join workflow (joinAndChat, src/prototype.ts 116-145) -/

/-- How a monitoring stage run ends: normal return on the stop command, or
the fatal monitoring-failed error propagating out of the loop. -/
inductive MonitorEnd where
  | endQuit
  | endFatal
deriving DecidableEq

/-- Oracles for one run of joinAndChat: whether each fallible stage call
succeeds, whether monitoring is enabled and how it ends, and whether the
page is already closed when the catch handler runs. -/
structure WorkflowEnv where
  navOk : Bool
  nameOk : Bool
  joinOk : Bool
  admissionOk : Bool
  sendOk : Bool
  monitorEnabled : Bool
  monitorEnd : MonitorEnd
  leaveOk : Bool
  pageClosedAtFailure : Bool
deriving DecidableEq

/-- The observable stages of one joinAndChat run, in execution order. -/
inductive WKStage where
  | navigated
  | cookiesHandled
  | surfaceResolved
  | nameFilled
  | joinSubmitted
  | admissionDone
  | chatMessageSent
  | monitorRan
  | leaveAttempted
  | failureScreenshot
deriving DecidableEq

/-- The named fatal conditions a stage can raise. -/
inductive WKError where
  | navError
  | nameEntryError
  | joinError
  | admissionError
  | chatSendError
  | monitorFatalError
  | leaveError
deriving DecidableEq

/-- The try block of joinAndChat (src/prototype.ts 117-134), stage by stage:
navigation, cookie handling (internally caught, never fails), surface
resolution, name fill, join submit, admission wait, chat send, then the
monitor stage when enabled, then the leave stage.  The first failing stage
aborts the block with its error; a fatal monitor end aborts before the
leave stage is reached. -/
def joinAndChatTry (env : WorkflowEnv) : List WKStage × Option WKError :=
  if env.navOk = false then ([], some WKError.navError) else
  let e1 := [WKStage.navigated, WKStage.cookiesHandled, WKStage.surfaceResolved]
  if env.nameOk = false then (e1, some WKError.nameEntryError) else
  let e2 := e1 ++ [WKStage.nameFilled]
  if env.joinOk = false then (e2, some WKError.joinError) else
  let e3 := e2 ++ [WKStage.joinSubmitted]
  if env.admissionOk = false then (e3, some WKError.admissionError) else
  let e4 := e3 ++ [WKStage.admissionDone]
  if env.sendOk = false then (e4, some WKError.chatSendError) else
  let e5 := e4 ++ [WKStage.chatMessageSent]
  if env.monitorEnabled then
    let e6 := e5 ++ [WKStage.monitorRan]
    if env.monitorEnd = MonitorEnd.endFatal then (e6, some WKError.monitorFatalError)
    else if env.leaveOk then (e6 ++ [WKStage.leaveAttempted], none)
    else (e6 ++ [WKStage.leaveAttempted], some WKError.leaveError)
  else if env.leaveOk then (e5 ++ [WKStage.leaveAttempted], none)
  else (e5 ++ [WKStage.leaveAttempted], some WKError.leaveError)

/-- Embedding of joinAndChat: run the try block; on an error, re-raise it
directly when the page is already closed, otherwise capture the best-effort
failure screenshot and then re-raise.  There is no handler that runs the
leave stage on the error path. -/
def joinAndChat (env : WorkflowEnv) : List WKStage × Option WKError :=
  match joinAndChatTry env with
  | (evs, none) => (evs, none)
  | (evs, some e) =>
    if env.pageClosedAtFailure then (evs, some e)
    else (evs ++ [WKStage.failureScreenshot], some e)

/-! ## Helper lemmas -/

lemma firstIdx_some {α : Type} (p : α → Bool) :
    ∀ (l : List α) (k : Nat), firstIdx p l = some k →
      ∃ a, l[k]? = some a ∧ p a = true ∧
        ∀ j b, j < k → l[j]? = some b → p b = false := by
  intro l
  induction l with
  | nil => intro k h; simp [firstIdx] at h
  | cons a l ih =>
    intro k h
    by_cases hpa : p a
    · simp [firstIdx, hpa] at h
      subst h
      exact ⟨a, by simp, hpa, fun j b hj => by omega⟩
    · simp [firstIdx, hpa] at h
      obtain ⟨k', hk', rfl⟩ := h
      obtain ⟨b0, hb0, hpb0, hall⟩ := ih k' hk'
      refine ⟨b0, by simpa using hb0, hpb0, ?_⟩
      intro j b hj hjb
      cases j with
      | zero =>
        simp at hjb
        subst hjb
        simpa using hpa
      | succ j' =>
        simp at hjb
        exact hall j' b (by omega) hjb

lemma firstIdx_min {α : Type} (p : α → Bool) :
    ∀ (l : List α) (i : Nat) (a : α), l[i]? = some a → p a = true →
      ∃ k, firstIdx p l = some k ∧ k ≤ i := by
  intro l
  induction l with
  | nil => intro i a h; simp at h
  | cons x l ih =>
    intro i a h hp
    by_cases hpx : p x
    · exact ⟨0, by simp [firstIdx, hpx], Nat.zero_le i⟩
    · cases i with
      | zero =>
        simp at h
        subst h
        exact absurd hp (by simpa using hpx)
      | succ i' =>
        simp at h
        obtain ⟨k, hk, hki⟩ := ih i' a h hp
        exact ⟨k + 1, by simp [firstIdx, hpx, hk], by omega⟩

lemma firstIdx_none {α : Type} (p : α → Bool) :
    ∀ (l : List α), firstIdx p l = none →
      ∀ (j : Nat) (b : α), l[j]? = some b → p b = false := by
  intro l
  induction l with
  | nil => intro _ j b h; simp at h
  | cons x l ih =>
    intro h j b hjb
    by_cases hpx : p x
    · simp [firstIdx, hpx] at h
    · simp [firstIdx, hpx] at h
      cases j with
      | zero =>
        simp at hjb
        subst hjb
        simpa using hpx
      | succ j' =>
        simp at hjb
        exact ih h j' b hjb

lemma replaceFirst_repl_occurs (pat repl : List Char) :
    ∀ s : List Char, pat <:+: s → repl <:+: replaceFirst pat repl s := by
  intro s
  induction s with
  | nil =>
    intro h
    rw [List.infix_nil] at h
    subst h
    simp [replaceFirst]
  | cons c rest ih =>
    intro h
    by_cases hp : pat <+: (c :: rest)
    · rw [replaceFirst, if_pos hp]
      exact List.IsPrefix.isInfix (List.prefix_append repl _)
    · rw [replaceFirst, if_neg hp]
      rcases List.infix_cons_iff.mp h with hpre | hinf
      · exact absurd hpre hp
      · exact (ih hinf).trans ( List.IsSuffix.isInfix (List.suffix_cons c _))

/-! ## Claims -/

/-- C3: resolver priority.  First conjunct: when the candidate at index `k`
is the only one whose parallel probe reports visible, resolution returns
`k`.  Second conjunct: in the parallel probe phase, whenever several
candidates are visible the resolved index is never larger than any visible
index (list position breaks ties).  Third conjunct: when no candidate is
visible in the parallel phase, the sequential fallback phase likewise
returns the lowest index that becomes visible. -/
theorem c3_resolver_priority :
    (∀ (cs : List CandidateProbe) (k : Nat) (c : CandidateProbe),
      cs[k]? = some c → c.probeVisible = true →
      (∀ (j : Nat) (d : CandidateProbe), cs[j]? = some d → j ≠ k → d.probeVisible = false) →
      findChatInputCandidates cs = some k)
    ∧ (∀ (cs : List CandidateProbe) (i : Nat) (c : CandidateProbe),
      cs[i]? = some c → c.probeVisible = true →
      ∃ m d, findChatInputCandidates cs = some m ∧ m ≤ i ∧ cs[m]? = some d ∧
        d.probeVisible = true)
    ∧ (∀ (cs : List CandidateProbe) (i : Nat) (c : CandidateProbe),
      (∀ (j : Nat) (d : CandidateProbe), cs[j]? = some d → d.probeVisible = false) →
      cs[i]? = some c → c.fallbackVisible = true →
      ∃ m d, findChatInputCandidates cs = some m ∧ m ≤ i ∧ cs[m]? = some d ∧
        d.fallbackVisible = true) := by
  refine ⟨?_, ?_, ?_⟩
  · intro cs k c hk hvis honly
    obtain ⟨k0, hk0, hk0le⟩ := firstIdx_min (fun c => c.probeVisible) cs k c hk hvis
    obtain ⟨d, hd, hdp, _⟩ := firstIdx_some (fun c => c.probeVisible) cs k0 hk0
    have hk0k : k0 = k := by
      by_contra hne
      exact absurd hdp (by simp [honly k0 d hd hne])
    subst hk0k
    simp [findChatInputCandidates, hk0]
  · intro cs i c hi hvis
    obtain ⟨k0, hk0, hk0le⟩ := firstIdx_min (fun c => c.probeVisible) cs i c hi hvis
    obtain ⟨d, hd, hdp, _⟩ := firstIdx_some (fun c => c.probeVisible) cs k0 hk0
    exact ⟨k0, d, by simp [findChatInputCandidates, hk0], hk0le, hd, hdp⟩
  · intro cs i c hnone hi hfb
    have hfi : firstIdx (fun c => c.probeVisible) cs = none := by
      cases hcase : firstIdx (fun c => c.probeVisible) cs with
      | none => rfl
      | some k0 =>
        obtain ⟨d, hd, hdp, _⟩ := firstIdx_some (fun c => c.probeVisible) cs k0 hcase
        exact absurd hdp (by simp [hnone k0 d hd])
    obtain ⟨k0, hk0, hk0le⟩ := firstIdx_min (fun c => c.fallbackVisible) cs i c hi hfb
    obtain ⟨d, hd, hdp, _⟩ := firstIdx_some (fun c => c.fallbackVisible) cs k0 hk0
    exact ⟨k0, d, by simp [findChatInputCandidates, hfi, hk0], hk0le, hd, hdp⟩

/-- Witness for C3: a single candidate whose parallel probe reports visible
resolves to index 0. -/
theorem c3_resolver_priority_witness :
    findChatInputCandidates [⟨true, false⟩] = some 0 :=
  c3_resolver_priority.1 [⟨true, false⟩] 0 ⟨true, false⟩ (by decide) (by decide)
    (by
      intro j d hj hne
      cases j with
      | zero => exact absurd rfl hne
      | succ j' => simp at hj)

/-- C7: admission shortcut.  Whenever at least two of the four in-meeting
indicator controls report visible in the initial parallel probe,
waitForAdmission classifies the session as in meeting and returns with
zero lobby poll iterations executed, for every lobby oracle and timeout. -/
theorem c7_admission_shortcut (probe : ProbeResults) (att : Nat → LobbyAttempt)
    (lobbyTimeoutMs : Nat) (h : 2 ≤ inMeetingVisibleCount probe) :
    waitForAdmission probe att lobbyTimeoutMs = (AdmissionOutcome.inMeeting, 0) := by
  simp [waitForAdmission, h]

/-- Witness for C7: join-audio and participants visible, the rest not. -/
theorem c7_admission_shortcut_witness :
    2 ≤ inMeetingVisibleCount ⟨none, none, some true, some true, none, none⟩ ∧
    waitForAdmission ⟨none, none, some true, some true, none, none⟩
      (fun _ => ⟨false, false⟩) 60000 = (AdmissionOutcome.inMeeting, 0) :=
  ⟨by decide, c7_admission_shortcut _ _ _ (by decide)⟩

/-- C10: the web-client URL rewrite.  If the path already contains the
web-client segment the URL is returned unchanged; otherwise a path
containing the join segment has its first occurrence rewritten with host
and query intact; and the rewrite is idempotent on every URL.  joinAndChat
navigates to this rewritten address (config webClientUrl), never to the
raw configured URL. -/
theorem c10_web_client_url_rewrite (u : ZUrl) :
    (wcJoinSeg <:+: u.path → toWebClientUrl u = u)
    ∧ (¬ wcJoinSeg <:+: u.path → jSeg <:+: u.path →
        toWebClientUrl u = ⟨u.host, replaceFirst jSeg wcJoinSeg u.path, u.query⟩)
    ∧ toWebClientUrl (toWebClientUrl u) = toWebClientUrl u := by
  refine ⟨fun h => by simp [toWebClientUrl, h],
    fun h1 h2 => by simp [toWebClientUrl, h1, h2], ?_⟩
  by_cases h1 : wcJoinSeg <:+: u.path
  · simp [toWebClientUrl, h1]
  · by_cases h2 : jSeg <:+: u.path
    · have hrw : wcJoinSeg <:+: replaceFirst jSeg wcJoinSeg u.path :=
        replaceFirst_repl_occurs jSeg wcJoinSeg u.path h2
      simp [toWebClientUrl, h1, h2, hrw]
    · simp [toWebClientUrl, h1, h2]

/-- Witness for C10: the join link path /j/123 is rewritten. -/
theorem c10_web_client_url_rewrite_witness :
    toWebClientUrl ⟨"x.zoom.us".toList, "/j/123".toList, []⟩ =
      ⟨"x.zoom.us".toList, replaceFirst jSeg wcJoinSeg "/j/123".toList, []⟩ :=
  (c10_web_client_url_rewrite ⟨"x.zoom.us".toList, "/j/123".toList, []⟩).2.1
    (by decide) (by decide)

/-- C5: quit short-circuit.  A message whose key is unseen, which is not a
self message, and whose normalized text is exactly the stop command makes
the batch processor return at once with the quit flag set, no reply for
that message, none for any later message of the batch, and no key marked
other than its own; at the loop level the monitor returns the clean quit
outcome (not the fatal error) with no reply dispatched from that point of
the batch on.  The `seen` argument ranges over every intermediate state, so
the statement also covers a stop command in the middle of a batch. -/
theorem c5_quit_short_circuit (cfg : MonitorConfig) (seen : List (List Char))
    (m : ChatMessage) (rest : List ChatMessage) (c : Nat) (tr : List PollStep)
    (hseen : messageKey m ∉ seen) (hself : ¬ isSelfMessage cfg m)
    (hquit : normalizeText m.text = quitText) :
    processBatch cfg seen (m :: rest) = ⟨messageKey m :: seen, [], true⟩ ∧
    monitorChatMessages cfg ⟨seen, c⟩ (PollStep.ok (m :: rest) :: tr) =
      (MonitorOutcome.quitOutcome, []) := by
  have hb : processBatch cfg seen (m :: rest) = ⟨messageKey m :: seen, [], true⟩ := by
    simp [processBatch, hseen, hself, hquit]
  refine ⟨hb, ?_⟩
  simp [monitorChatMessages, hb]

/-- Witness for C5: a capitalized padded Quit from another participant ends
the loop cleanly, and the later message of the same batch is not touched. -/
theorem c5_quit_short_circuit_witness :
    processBatch ⟨"Friday BOT".toList, "hello".toList⟩ []
      [⟨"Alice".toList, " Quit ".toList, true, true⟩,
       ⟨"Bob".toList, "hello there".toList, true, true⟩] =
      ⟨[messageKey ⟨"Alice".toList, " Quit ".toList, true, true⟩], [], true⟩ ∧
    monitorChatMessages ⟨"Friday BOT".toList, "hello".toList⟩ ⟨[], 0⟩
      [PollStep.ok [⟨"Alice".toList, " Quit ".toList, true, true⟩,
        ⟨"Bob".toList, "hello there".toList, true, true⟩]] =
      (MonitorOutcome.quitOutcome, []) :=
  c5_quit_short_circuit ⟨"Friday BOT".toList, "hello".toList⟩ []
    ⟨"Alice".toList, " Quit ".toList, true, true⟩
    [⟨"Bob".toList, "hello there".toList, true, true⟩] 0 []
    (by decide) (by decide) (by decide)

/-- C2, evaluated at the failing input: with messageText configured to
"hello", a message from another sender whose text equals the configured
messageText is not treated as a self message — the loop dispatches a roger
reply for it, though the claim requires that no reply ever be dispatched
for such a message.  The filter at src/prototype.ts line 437 compares the
text against the hardcoded default literal instead of the configured
messageText field, contradicting the stated purpose of the filter. -/
theorem c2_self_filter_config_message_bug :
    (⟨"Alice".toList, "hello".toList, true, true⟩ : ChatMessage).text =
      (⟨"Friday BOT".toList, "hello".toList⟩ : MonitorConfig).messageText ∧
    (processBatch ⟨"Friday BOT".toList, "hello".toList⟩ []
        [⟨"Alice".toList, "hello".toList, true, true⟩]).replies =
      [⟨"Alice".toList, "hello".toList, ReplyToken.roger, ReplyStatus.sent⟩] := by
  exact ⟨rfl, by decide⟩

lemma processBatch_seen_mono (cfg : MonitorConfig) :
    ∀ (msgs : List ChatMessage) (seen : List (List Char)) (k : List Char),
      k ∈ seen → k ∈ (processBatch cfg seen msgs).seen := by
  intro msgs
  induction msgs with
  | nil => intro seen k hk; simpa [processBatch] using hk
  | cons m rest ih =>
    intro seen k hk
    by_cases h1 : messageKey m ∈ seen
    · simpa [processBatch, h1] using ih seen k hk
    · by_cases h2 : isSelfMessage cfg m
      · simpa [processBatch, h1, h2] using ih _ k (List.mem_cons_of_mem _ hk)
      · by_cases h3 : normalizeText m.text = quitText
        · simp [processBatch, h1, h2, h3]
          exact Or.inr hk
        · simpa [processBatch, h1, h2, h3] using ih _ k (List.mem_cons_of_mem _ hk)

lemma countFor_nil (s t : List Char) : countFor s t [] = 0 := rfl

lemma countFor_cons (s t : List Char) (r : Reply) (rs : List Reply) :
    countFor s t (r :: rs) =
      countFor s t rs + (if r.toName = s ∧ r.toText = t then 1 else 0) := by
  simp [countFor, List.countP_cons]

lemma countFor_append (s t : List Char) (as bs : List Reply) :
    countFor s t (as ++ bs) = countFor s t as + countFor s t bs := by
  simp [countFor, List.countP_append]

lemma processBatch_count (cfg : MonitorConfig) (s t : List Char) :
    ∀ (msgs : List ChatMessage) (seen : List (List Char)),
      (keyOf s t ∈ seen → countFor s t (processBatch cfg seen msgs).replies = 0) ∧
      countFor s t (processBatch cfg seen msgs).replies ≤ 1 ∧
      (1 ≤ countFor s t (processBatch cfg seen msgs).replies →
        keyOf s t ∈ (processBatch cfg seen msgs).seen) := by
  intro msgs
  induction msgs with
  | nil =>
    intro seen
    exact ⟨fun _ => rfl, by simp [processBatch, countFor_nil], fun h => by
      simp [processBatch, countFor_nil] at h⟩
  | cons m rest ih =>
    intro seen
    by_cases h1 : messageKey m ∈ seen
    · simpa [processBatch, h1] using ih seen
    · by_cases h2 : isSelfMessage cfg m
      · have hrec := ih (messageKey m :: seen)
        refine ⟨fun hk => ?_, ?_, fun hcnt => ?_⟩
        · simpa [processBatch, h1, h2] using hrec.1 (List.mem_cons_of_mem _ hk)
        · simpa [processBatch, h1, h2] using hrec.2.1
        · simpa [processBatch, h1, h2] using
            hrec.2.2 (by simpa [processBatch, h1, h2] using hcnt)
      · by_cases h3 : normalizeText m.text = quitText
        · refine ⟨fun _ => ?_, ?_, fun hcnt => ?_⟩
          · simp [processBatch, h1, h2, h3, countFor_nil]
          · simp [processBatch, h1, h2, h3, countFor_nil]
          · simp [processBatch, h1, h2, h3, countFor_nil] at hcnt
        · have hrec := ih (messageKey m :: seen)
          have hshape : processBatch cfg seen (m :: rest) =
              ⟨(processBatch cfg (messageKey m :: seen) rest).seen,
                ⟨m.name, m.text, replyTokenFor cfg m,
                  sendQuickReply m.replyInputFound m.replySendOk⟩ ::
                  (processBatch cfg (messageKey m :: seen) rest).replies,
                (processBatch cfg (messageKey m :: seen) rest).quit⟩ := by
            simp [processBatch, h1, h2, h3]
          by_cases hmt : m.name = s ∧ m.text = t
          · obtain ⟨hms, hmtx⟩ := hmt
            subst hms
            subst hmtx
            have hz : countFor m.name m.text
                (processBatch cfg (messageKey m :: seen) rest).replies = 0 :=
              hrec.1 (by simp [messageKey, keyOf])
            refine ⟨fun hk => ?_, ?_, fun _ => ?_⟩
            · exact absurd (by simpa [messageKey, keyOf] using hk) h1
            · rw [hshape, countFor_cons, hz, if_pos ⟨rfl, rfl⟩]
            · rw [hshape]
              exact processBatch_seen_mono cfg rest _ _ (by simp [messageKey, keyOf])
          · refine ⟨fun hk => ?_, ?_, fun hcnt => ?_⟩
            · have hr := hrec.1 (List.mem_cons_of_mem _ hk)
              rw [hshape, countFor_cons, hr, if_neg hmt]
            · have hle := hrec.2.1
              rw [hshape, countFor_cons, if_neg hmt]
              omega
            · rw [hshape, countFor_cons, if_neg hmt] at hcnt
              rw [hshape]
              exact hrec.2.2 (by omega)

lemma monitor_count (cfg : MonitorConfig) (s t : List Char) :
    ∀ (tr : List PollStep) (st : LoopState),
      (keyOf s t ∈ st.seen → countFor s t (monitorChatMessages cfg st tr).2 = 0) ∧
      countFor s t (monitorChatMessages cfg st tr).2 ≤ 1 := by
  intro tr
  induction tr with
  | nil =>
    intro st
    exact ⟨fun _ => rfl, by simp [monitorChatMessages, countFor_nil]⟩
  | cons step rest ih =>
    intro st
    cases step with
    | ok msgs =>
      have hb := processBatch_count cfg s t msgs st.seen
      by_cases hq : (processBatch cfg st.seen msgs).quit
      · refine ⟨fun hk => ?_, ?_⟩
        · simpa [monitorChatMessages, hq] using hb.1 hk
        · simpa [monitorChatMessages, hq] using hb.2.1
      · have hrec := ih ⟨(processBatch cfg st.seen msgs).seen, 0⟩
        have hshape : monitorChatMessages cfg st (PollStep.ok msgs :: rest) =
            ((monitorChatMessages cfg ⟨(processBatch cfg st.seen msgs).seen, 0⟩ rest).1,
              (processBatch cfg st.seen msgs).replies ++
                (monitorChatMessages cfg ⟨(processBatch cfg st.seen msgs).seen, 0⟩ rest).2) := by
          simp [monitorChatMessages, hq]
        refine ⟨fun hk => ?_, ?_⟩
        · rw [hshape]
          simp only [countFor_append]
          rw [hb.1 hk, hrec.1 (processBatch_seen_mono cfg msgs st.seen _ hk)]
        · rw [hshape]
          simp only [countFor_append]
          by_cases hc1 : 1 ≤ countFor s t (processBatch cfg st.seen msgs).replies
          · have hk2 := hb.2.2 hc1
            have hz := hrec.1 hk2
            have hle := hb.2.1
            omega
          · have hle := hrec.2
            omega
    | err =>
      by_cases hf : maxConsecutiveErrors ≤ st.errs + 1
      · exact ⟨fun _ => by simp [monitorChatMessages, hf, countFor_nil],
          by simp [monitorChatMessages, hf, countFor_nil]⟩
      · have hrec := ih ⟨st.seen, st.errs + 1⟩
        exact ⟨fun hk => by simpa [monitorChatMessages, hf] using hrec.1 hk,
          by simpa [monitorChatMessages, hf] using hrec.2⟩

/-- C4: dedup idempotence.  Over any finite trace of poll iterations of one
monitoring session, the number of replies dispatched for a given
`(sender, text)` pair is at most one, no matter how many times the pair is
presented; and once the composite key of the pair is in the seen set, no
reply is ever dispatched for the pair again. -/
theorem c4_dedup_idempotence (cfg : MonitorConfig) (s t : List Char)
    (tr : List PollStep) (st : LoopState) :
    countFor s t (monitorChatMessages cfg st tr).2 ≤ 1 ∧
    (keyOf s t ∈ st.seen → countFor s t (monitorChatMessages cfg st tr).2 = 0) :=
  ⟨(monitor_count cfg s t tr st).2, (monitor_count cfg s t tr st).1⟩

/-- Witness for C4: with the key of (Alice, ping) already seen, replaying
the pair produces zero replies. -/
theorem c4_dedup_idempotence_witness :
    countFor "Alice".toList "ping".toList
      (monitorChatMessages ⟨"Friday BOT".toList, "hello".toList⟩
        ⟨[keyOf "Alice".toList "ping".toList], 0⟩
        [PollStep.ok [⟨"Alice".toList, "ping".toList, true, true⟩],
         PollStep.ok [⟨"Alice".toList, "ping".toList, true, true⟩]]).2 = 0 :=
  (c4_dedup_idempotence ⟨"Friday BOT".toList, "hello".toList⟩
    "Alice".toList "ping".toList
    [PollStep.ok [⟨"Alice".toList, "ping".toList, true, true⟩],
     PollStep.ok [⟨"Alice".toList, "ping".toList, true, true⟩]]
    ⟨[keyOf "Alice".toList "ping".toList], 0⟩).2 (by decide)

lemma isWsChar_toLowerChar (c : Char) : isWsChar (toLowerChar c) = isWsChar c := by
  unfold toLowerChar
  cases hf : lowerPairs.find? (fun p => p.1 == c) with
  | none => rfl
  | some p =>
    have hmem : p ∈ lowerPairs := List.mem_of_find?_eq_some hf
    have hpc : (p.1 == c) = true := List.find?_some (p := fun q : Char × Char => q.1 == c) hf
    have hc : p.1 = c := by simpa using hpc
    have hws : ∀ q ∈ lowerPairs, isWsChar q.1 = false ∧ isWsChar q.2 = false := by decide
    rw [(hws p hmem).2, ← hc, (hws p hmem).1]

lemma dropWhileHeadFalse (p : Char → Bool) :
    ∀ (l : List Char) (a : Char), (l.dropWhile p).head? = some a → p a = false := by
  intro l
  induction l with
  | nil => intro a h; simp at h
  | cons x xs ih =>
    intro a h
    by_cases hx : p x
    · rw [List.dropWhile_cons_of_pos hx] at h
      exact ih a h
    · rw [List.dropWhile_cons_of_neg hx] at h
      simp at h
      subst h
      simpa using hx

lemma prefixHead {α : Type} {l₁ l₂ : List α} (h : l₁ <+: l₂) {a : α}
    (ha : l₁.head? = some a) : l₂.head? = some a := by
  obtain ⟨r, rfl⟩ := h
  cases l₁ with
  | nil => simp at ha
  | cons x xs => simpa using ha

lemma trimRightL_pre (z : List Char) : trimRightL z <+: z := by
  have h : z.reverse.dropWhile isWsChar <:+ z.reverse := List.dropWhile_suffix isWsChar
  have h2 := List.reverse_prefix.mpr h
  rwa [List.reverse_reverse] at h2

lemma trimL_infix_self (t : List Char) : trimL t <:+: t := by
  have h1 : trimL t <+: trimLeft t := trimRightL_pre (trimLeft t)
  have h2 : trimLeft t <:+ t := List.dropWhile_suffix isWsChar
  exact ( List.IsPrefix.isInfix h1).trans ( List.IsSuffix.isInfix h2)

lemma trimL_self_head (x : List Char) (hx : trimL x = x) :
    ∀ hd, x.head? = some hd → isWsChar hd = false := by
  intro hd hh
  have hpre : x <+: trimLeft x := by
    have := trimRightL_pre (trimLeft x)
    rwa [show trimRightL (trimLeft x) = x from hx] at this
  have h2 : (trimLeft x).head? = some hd := prefixHead hpre hh
  exact dropWhileHeadFalse isWsChar x hd h2

lemma trimL_self_last (x : List Char) (hx : trimL x = x) :
    ∀ lc, x.getLast? = some lc → isWsChar lc = false := by
  intro lc hl
  have hrev : x.reverse.head? = some lc := by
    rw [← List.getLast?_eq_head?_reverse]
    exact hl
  have hx2 : x.reverse = (trimLeft x).reverse.dropWhile isWsChar := by
    conv =>
      lhs
      rw [← hx]
    unfold trimL trimRightL
    rw [List.reverse_reverse]
  rw [hx2] at hrev
  exact dropWhileHeadFalse isWsChar (trimLeft x).reverse lc hrev

lemma infix_dropWhile_of_head (p : Char → Bool) (hd : Char) (tl : List Char)
    (hph : p hd = false) :
    ∀ t, (hd :: tl) <:+: t → (hd :: tl) <:+: t.dropWhile p := by
  intro t
  induction t with
  | nil =>
    intro h
    rw [List.infix_nil] at h
    exact absurd h (by simp)
  | cons c rest ih =>
    intro h
    by_cases hc : p c
    · rw [List.dropWhile_cons_of_pos hc]
      rcases List.infix_cons_iff.mp h with hpre | hinf
      · have : hd = c := ( List.cons_prefix_cons.mp hpre).1
        subst this
        exact absurd hc (by simp [hph])
      · exact ih hinf
    · rwa [List.dropWhile_cons_of_neg hc]

lemma infix_trimRightL_of_last (b : List Char) (lc : Char)
    (hlast : b.getLast? = some lc) (hlc : isWsChar lc = false)
    (t : List Char) (h : b <:+: t) : b <:+: trimRightL t := by
  have hrevh : b.reverse.head? = some lc := by
    rw [← List.getLast?_eq_head?_reverse]
    exact hlast
  cases hb : b.reverse with
  | nil => rw [hb] at hrevh; simp at hrevh
  | cons hd tl =>
    have hhd : hd = lc := by rw [hb] at hrevh; simpa using hrevh
    subst hhd
    have hrev : b.reverse <:+: t.reverse := List.reverse_infix.mpr h
    rw [hb] at hrev
    have hdrop := infix_dropWhile_of_head isWsChar hd tl hlc t.reverse hrev
    rw [← hb] at hdrop
    have h2 : b.reverse <:+: ((t.reverse.dropWhile isWsChar).reverse).reverse := by
      rwa [List.reverse_reverse]
    exact List.reverse_infix.mp h2

lemma infix_trimL_iff (b t : List Char) (hd lc : Char)
    (hhead : b.head? = some hd) (hh : isWsChar hd = false)
    (hlast : b.getLast? = some lc) (hl : isWsChar lc = false) :
    b <:+: trimL t ↔ b <:+: t := by
  constructor
  · intro h
    exact h.trans (trimL_infix_self t)
  · intro h
    cases b with
    | nil => simp at hhead
    | cons b0 bs =>
      have hb0 : b0 = hd := by simpa using hhead
      subst hb0
      have h1 : (b0 :: bs) <:+: trimLeft t :=
        infix_dropWhile_of_head isWsChar b0 bs hh t h
      exact infix_trimRightL_of_last (b0 :: bs) lc hlast hl (trimLeft t) h1

lemma mention_trim_iff (cfg : MonitorConfig) (tx : List Char)
    (hbn : cfg.botName ≠ []) (hbt : trimL cfg.botName = cfg.botName) :
    (lowerL cfg.botName <:+: normalizeText tx ↔ lowerL cfg.botName <:+: lowerL tx) := by
  obtain ⟨h0, hh0⟩ : ∃ h0, cfg.botName.head? = some h0 := by
    cases hcb : cfg.botName with
    | nil => exact absurd hcb hbn
    | cons a l => exact ⟨a, rfl⟩
  obtain ⟨l0, hl0⟩ : ∃ l0, cfg.botName.getLast? = some l0 := by
    have : cfg.botName.getLast?.isSome := List.getLast?_isSome.mpr hbn
    exact Option.isSome_iff_exists.mp this
  have hwh : isWsChar h0 = false := trimL_self_head cfg.botName hbt h0 hh0
  have hwl : isWsChar l0 = false := trimL_self_last cfg.botName hbt l0 hl0
  have hbh : (lowerL cfg.botName).head? = some (toLowerChar h0) := by
    unfold lowerL
    rw [List.head?_map, hh0]
    rfl
  have hbl : (lowerL cfg.botName).getLast? = some (toLowerChar l0) := by
    unfold lowerL
    rw [List.getLast?_map, hl0]
    rfl
  have hwh2 : isWsChar (toLowerChar h0) = false := by rw [isWsChar_toLowerChar, hwh]
  have hwl2 : isWsChar (toLowerChar l0) = false := by rw [isWsChar_toLowerChar, hwl]
  exact infix_trimL_iff (lowerL cfg.botName) (lowerL tx) (toLowerChar h0)
    (toLowerChar l0) hbh hwh2 hbl hwl2

/-- C6: mention versus default reply.  For a processed message (key unseen,
not a self message, not the stop command), under the configuration
guarantees enforced by the config validator (bot name nonempty and already
trimmed), exactly one reply is dispatched for the message: the dong token
when the raw message text contains the configured bot name as a
case-insensitive substring, the roger token otherwise.  The code tests the
lowercased bot name against the lowercased AND trimmed text; the proof
shows this agrees with the plain case-insensitive-substring reading of the
claim. -/
theorem c6_mention_vs_default_reply (cfg : MonitorConfig) (seen : List (List Char))
    (m : ChatMessage) (rest : List ChatMessage)
    (hbn : cfg.botName ≠ []) (hbt : trimL cfg.botName = cfg.botName)
    (hseen : messageKey m ∉ seen) (hself : ¬ isSelfMessage cfg m)
    (hquit : normalizeText m.text ≠ quitText) :
    (processBatch cfg seen (m :: rest)).replies =
      ⟨m.name, m.text,
        (if lowerL cfg.botName <:+: lowerL m.text then ReplyToken.dong
          else ReplyToken.roger),
        sendQuickReply m.replyInputFound m.replySendOk⟩ ::
      (processBatch cfg (messageKey m :: seen) rest).replies := by
  have htok : replyTokenFor cfg m =
      (if lowerL cfg.botName <:+: lowerL m.text then ReplyToken.dong
        else ReplyToken.roger) := by
    unfold replyTokenFor
    by_cases h : lowerL cfg.botName <:+: lowerL m.text
    · rw [if_pos ((mention_trim_iff cfg m.text hbn hbt).mpr h), if_pos h]
    · rw [if_neg (fun hc => h ((mention_trim_iff cfg m.text hbn hbt).mp hc)), if_neg h]
  simp [processBatch, hseen, hself, hquit, htok]

/-- Witness for C6: a message mentioning the bot name in different case
receives the dong token. -/
theorem c6_mention_vs_default_reply_witness :
    (processBatch ⟨"Friday BOT".toList, "hello".toList⟩ []
      [⟨"Alice".toList, "hi friday bot".toList, true, true⟩]).replies =
      ⟨"Alice".toList, "hi friday bot".toList,
        (if lowerL "Friday BOT".toList <:+: lowerL "hi friday bot".toList
          then ReplyToken.dong else ReplyToken.roger),
        sendQuickReply true true⟩ ::
      (processBatch ⟨"Friday BOT".toList, "hello".toList⟩
        [messageKey ⟨"Alice".toList, "hi friday bot".toList, true, true⟩] []).replies :=
  c6_mention_vs_default_reply ⟨"Friday BOT".toList, "hello".toList⟩ []
    ⟨"Alice".toList, "hi friday bot".toList, true, true⟩ []
    (by decide) (by decide) (by decide) (by decide) (by decide)

lemma monitor_nil (cfg : MonitorConfig) (st : LoopState) :
    monitorChatMessages cfg st [] = (MonitorOutcome.pending st, []) := rfl

lemma monitor_ok_quit (cfg : MonitorConfig) (st : LoopState) (msgs : List ChatMessage)
    (rest : List PollStep) (hq : (processBatch cfg st.seen msgs).quit = true) :
    monitorChatMessages cfg st (PollStep.ok msgs :: rest) =
      (MonitorOutcome.quitOutcome, (processBatch cfg st.seen msgs).replies) := by
  simp [monitorChatMessages, hq]

lemma monitor_ok_cont (cfg : MonitorConfig) (st : LoopState) (msgs : List ChatMessage)
    (rest : List PollStep) (hq : (processBatch cfg st.seen msgs).quit = false) :
    monitorChatMessages cfg st (PollStep.ok msgs :: rest) =
      ((monitorChatMessages cfg ⟨(processBatch cfg st.seen msgs).seen, 0⟩ rest).1,
        (processBatch cfg st.seen msgs).replies ++
          (monitorChatMessages cfg ⟨(processBatch cfg st.seen msgs).seen, 0⟩ rest).2) := by
  simp [monitorChatMessages, hq]

lemma monitor_err_fatal (cfg : MonitorConfig) (st : LoopState) (rest : List PollStep)
    (h : maxConsecutiveErrors ≤ st.errs + 1) :
    monitorChatMessages cfg st (PollStep.err :: rest) = (MonitorOutcome.fatal, []) := by
  simp [monitorChatMessages, h]

lemma monitor_err_cont (cfg : MonitorConfig) (st : LoopState) (rest : List PollStep)
    (h : ¬ maxConsecutiveErrors ≤ st.errs + 1) :
    monitorChatMessages cfg st (PollStep.err :: rest) =
      monitorChatMessages cfg ⟨st.seen, st.errs + 1⟩ rest := by
  simp [monitorChatMessages, h]

lemma monitor_append (cfg : MonitorConfig) :
    ∀ (p q : List PollStep) (st : LoopState),
      monitorChatMessages cfg st (p ++ q) =
        match monitorChatMessages cfg st p with
        | (MonitorOutcome.pending st2, rs) =>
          ((monitorChatMessages cfg st2 q).1, rs ++ (monitorChatMessages cfg st2 q).2)
        | (o, rs) => (o, rs) := by
  intro p
  induction p with
  | nil =>
    intro q st
    simp [monitor_nil]
  | cons step p ih =>
    intro q st
    cases step with
    | ok msgs =>
      by_cases hq : (processBatch cfg st.seen msgs).quit = true
      · rw [List.cons_append, monitor_ok_quit cfg st msgs (p ++ q) hq,
          monitor_ok_quit cfg st msgs p hq]
      · have hqf : (processBatch cfg st.seen msgs).quit = false := by simpa using hq
        rw [List.cons_append, monitor_ok_cont cfg st msgs (p ++ q) hqf,
          monitor_ok_cont cfg st msgs p hqf,
          ih q ⟨(processBatch cfg st.seen msgs).seen, 0⟩]
        cases hr : monitorChatMessages cfg ⟨(processBatch cfg st.seen msgs).seen, 0⟩ p with
        | mk o rs =>
          cases o with
          | pending st2 => simp
          | quitOutcome => simp
          | fatal => simp
    | err =>
      by_cases hf : maxConsecutiveErrors ≤ st.errs + 1
      · rw [List.cons_append, monitor_err_fatal cfg st (p ++ q) hf,
          monitor_err_fatal cfg st p hf]
      · rw [List.cons_append, monitor_err_cont cfg st (p ++ q) hf,
          monitor_err_cont cfg st p hf, ih q ⟨st.seen, st.errs + 1⟩]

lemma monitor_pending_errs (cfg : MonitorConfig) :
    ∀ (tr : List PollStep) (st st2 : LoopState) (rs : List Reply),
      st.errs ≤ 9 →
      monitorChatMessages cfg st tr = (MonitorOutcome.pending st2, rs) →
      st2.errs ≤ 9 := by
  intro tr
  induction tr with
  | nil =>
    intro st st2 rs h9 heq
    rw [monitor_nil] at heq
    simp at heq
    rw [← heq.1]
    exact h9
  | cons step rest ih =>
    intro st st2 rs h9 heq
    cases step with
    | ok msgs =>
      by_cases hq : (processBatch cfg st.seen msgs).quit = true
      · rw [monitor_ok_quit cfg st msgs rest hq] at heq
        simp at heq
      · have hqf : (processBatch cfg st.seen msgs).quit = false := by simpa using hq
        rw [monitor_ok_cont cfg st msgs rest hqf] at heq
        cases hr : monitorChatMessages cfg ⟨(processBatch cfg st.seen msgs).seen, 0⟩ rest with
        | mk o rs2 =>
          rw [hr] at heq
          cases o with
          | pending st3 =>
            simp at heq
            rw [← heq.1]
            exact ih ⟨(processBatch cfg st.seen msgs).seen, 0⟩ st3 rs2 (by dsimp only; omega) hr
          | quitOutcome => simp at heq
          | fatal => simp at heq
    | err =>
      by_cases hf : maxConsecutiveErrors ≤ st.errs + 1
      · rw [monitor_err_fatal cfg st rest hf] at heq
        simp at heq
      · rw [monitor_err_cont cfg st rest hf] at heq
        simp [maxConsecutiveErrors] at hf
        exact ih ⟨st.seen, st.errs + 1⟩ st2 rs (by dsimp only; omega) heq

lemma monitor_fatal_of_errs (cfg : MonitorConfig) :
    ∀ (k : Nat) (st : LoopState) (q : List PollStep),
      st.errs ≤ 9 → 10 ≤ st.errs + k →
      monitorChatMessages cfg st (List.replicate k PollStep.err ++ q) =
        (MonitorOutcome.fatal, []) := by
  intro k
  induction k with
  | zero =>
    intro st q h9 h10
    omega
  | succ k ih =>
    intro st q h9 h10
    rw [List.replicate_succ, List.cons_append]
    by_cases hf : maxConsecutiveErrors ≤ st.errs + 1
    · exact monitor_err_fatal cfg st _ hf
    · rw [monitor_err_cont cfg st _ hf]
      simp [maxConsecutiveErrors] at hf
      exact ih ⟨st.seen, st.errs + 1⟩ q (by dsimp only; omega) (by dsimp only; omega)

lemma monitor_fatal_decomp (cfg : MonitorConfig) :
    ∀ (tr : List PollStep) (st : LoopState), st.errs ≤ 9 →
      (monitorChatMessages cfg st tr).1 = MonitorOutcome.fatal →
      (∃ s, tr = List.replicate (10 - st.errs) PollStep.err ++ s) ∨
      (∃ p s st2 rs, tr = p ++ List.replicate 10 PollStep.err ++ s ∧
        monitorChatMessages cfg st p = (MonitorOutcome.pending st2, rs) ∧
        st2.errs = 0) := by
  intro tr
  induction tr with
  | nil =>
    intro st h9 hf
    rw [monitor_nil] at hf
    simp at hf
  | cons step rest ih =>
    intro st h9 hf
    cases step with
    | ok msgs =>
      by_cases hq : (processBatch cfg st.seen msgs).quit = true
      · rw [monitor_ok_quit cfg st msgs rest hq] at hf
        simp at hf
      · have hqf : (processBatch cfg st.seen msgs).quit = false := by simpa using hq
        rw [monitor_ok_cont cfg st msgs rest hqf] at hf
        have h0 : (⟨(processBatch cfg st.seen msgs).seen, 0⟩ : LoopState).errs ≤ 9 := by
          simp
        rcases ih ⟨(processBatch cfg st.seen msgs).seen, 0⟩ h0 hf with
          ⟨s, hs⟩ | ⟨p, s, st2, rs, hps, hpend, herrs⟩
        · dsimp only at hs
          refine Or.inr ⟨[PollStep.ok msgs], s,
            ⟨(processBatch cfg st.seen msgs).seen, 0⟩,
            (processBatch cfg st.seen msgs).replies, ?_, ?_, rfl⟩
          · simp only [List.cons_append, List.nil_append]
            rw [hs]
          · rw [monitor_ok_cont cfg st msgs [] hqf, monitor_nil]
            simp
        · refine Or.inr ⟨PollStep.ok msgs :: p, s, st2,
            (processBatch cfg st.seen msgs).replies ++ rs, ?_, ?_, herrs⟩
          · rw [hps]
            simp
          · rw [monitor_ok_cont cfg st msgs p hqf, hpend]
    | err =>
      by_cases hfe : maxConsecutiveErrors ≤ st.errs + 1
      · left
        refine ⟨rest, ?_⟩
        have h9e : st.errs = 9 := by
          simp [maxConsecutiveErrors] at hfe
          omega
        rw [h9e]
        simp [List.replicate_succ]
      · rw [monitor_err_cont cfg st rest hfe] at hf
        have hle : st.errs + 1 ≤ 9 := by
          simp [maxConsecutiveErrors] at hfe
          omega
        rcases ih ⟨st.seen, st.errs + 1⟩ (by simpa using hle) hf with
          ⟨s, hs⟩ | ⟨p, s, st2, rs, hps, hpend, herrs⟩
        · left
          refine ⟨s, ?_⟩
          dsimp only at hs
          have hsub : 10 - st.errs = (10 - (st.errs + 1)) + 1 := by omega
          rw [hsub, List.replicate_succ, List.cons_append, hs]
        · refine Or.inr ⟨PollStep.err :: p, s, st2, rs, ?_, ?_, herrs⟩
          · rw [hps]
            simp
          · rw [monitor_err_cont cfg st p hfe]
            exact hpend

lemma processBatch_erase (cfg : MonitorConfig) :
    ∀ (msgs : List ChatMessage) (seen : List (List Char)),
      (processBatch cfg seen (msgs.map eraseReplyOracle)).seen =
        (processBatch cfg seen msgs).seen ∧
      (processBatch cfg seen (msgs.map eraseReplyOracle)).quit =
        (processBatch cfg seen msgs).quit := by
  intro msgs
  induction msgs with
  | nil => intro seen; exact ⟨rfl, rfl⟩
  | cons m rest ih =>
    intro seen
    have h1e : (messageKey (eraseReplyOracle m) ∈ seen) ↔ (messageKey m ∈ seen) := Iff.rfl
    have h2e : isSelfMessage cfg (eraseReplyOracle m) ↔ isSelfMessage cfg m := Iff.rfl
    have h3e : normalizeText (eraseReplyOracle m).text = normalizeText m.text := rfl
    have hke : messageKey (eraseReplyOracle m) = messageKey m := rfl
    by_cases h1 : messageKey m ∈ seen
    · simp only [List.map_cons, processBatch, hke, if_pos h1]
      exact ih seen
    · by_cases h2 : isSelfMessage cfg m
      · simp only [List.map_cons, processBatch, hke, if_neg h1, if_pos (h2e.mpr h2),
          if_pos h2]
        exact ih (messageKey m :: seen)
      · by_cases h3 : normalizeText m.text = quitText
        · simp only [List.map_cons, processBatch, hke, if_neg h1, if_neg (h2e.not.mpr h2),
            if_neg h2, h3e, if_pos h3]
          constructor <;> trivial
        · simp only [List.map_cons, processBatch, hke, if_neg h1, if_neg (h2e.not.mpr h2),
            if_neg h2, h3e, if_neg h3]
          exact ih (messageKey m :: seen)

lemma monitor_erase (cfg : MonitorConfig) :
    ∀ (tr : List PollStep) (st : LoopState),
      (monitorChatMessages cfg st (tr.map eraseStep)).1 =
        (monitorChatMessages cfg st tr).1 := by
  intro tr
  induction tr with
  | nil => intro st; rfl
  | cons step rest ih =>
    intro st
    cases step with
    | ok msgs =>
      have hb := processBatch_erase cfg msgs st.seen
      have hestep : eraseStep (PollStep.ok msgs) = PollStep.ok (msgs.map eraseReplyOracle) := rfl
      by_cases hq : (processBatch cfg st.seen msgs).quit = true
      · have hq2 : (processBatch cfg st.seen (msgs.map eraseReplyOracle)).quit = true := by
          rw [hb.2]
          exact hq
        rw [List.map_cons, hestep, monitor_ok_quit cfg st _ _ hq2,
          monitor_ok_quit cfg st msgs rest hq]
      · have hqf : (processBatch cfg st.seen msgs).quit = false := by simpa using hq
        have hq2 : (processBatch cfg st.seen (msgs.map eraseReplyOracle)).quit = false := by
          rw [hb.2]
          exact hqf
        rw [List.map_cons, hestep, monitor_ok_cont cfg st _ _ hq2,
          monitor_ok_cont cfg st msgs rest hqf]
        dsimp only
        rw [hb.1]
        exact ih ⟨(processBatch cfg st.seen msgs).seen, 0⟩
    | err =>
      by_cases hf : maxConsecutiveErrors ≤ st.errs + 1
      · rw [List.map_cons]
        rw [show eraseStep PollStep.err = PollStep.err from rfl,
          monitor_err_fatal cfg st _ hf, monitor_err_fatal cfg st rest hf]
      · rw [List.map_cons]
        rw [show eraseStep PollStep.err = PollStep.err from rfl,
          monitor_err_cont cfg st _ hf, monitor_err_cont cfg st rest hf]
        exact ih ⟨st.seen, st.errs + 1⟩

/-- C8: error ceiling.  First conjunct: starting a monitoring session with
counter zero, the loop ends in the fatal monitoring-failed outcome exactly
when the trace contains ten consecutive failing poll iterations that begin
right after a prefix the loop survives (so a successful iteration anywhere
in between restarts the count — the counter resets to zero on success and
every error run must reach ten uninterrupted).  Second conjunct: the
outcome is unchanged when every reply-dispatch oracle is replaced, so a
failed best-effort reply never contributes to the error counter. -/
theorem c8_error_ceiling :
    (∀ (cfg : MonitorConfig) (seen : List (List Char)) (tr : List PollStep),
      ((monitorChatMessages cfg ⟨seen, 0⟩ tr).1 = MonitorOutcome.fatal ↔
        ∃ p s, tr = p ++ List.replicate 10 PollStep.err ++ s ∧
          ∃ st2 rs, monitorChatMessages cfg ⟨seen, 0⟩ p =
            (MonitorOutcome.pending st2, rs)))
    ∧ (∀ (cfg : MonitorConfig) (st : LoopState) (tr : List PollStep),
      (monitorChatMessages cfg st (tr.map eraseStep)).1 =
        (monitorChatMessages cfg st tr).1) := by
  constructor
  · intro cfg seen tr
    constructor
    · intro hf
      rcases monitor_fatal_decomp cfg tr ⟨seen, 0⟩ (by simp) hf with
        ⟨s, hs⟩ | ⟨p, s, st2, rs, hps, hpend, _⟩
      · dsimp only at hs
        refine ⟨[], s, ?_, ⟨seen, 0⟩, [], rfl⟩
        rw [hs]
        simp
      · exact ⟨p, s, hps, st2, rs, hpend⟩
    · rintro ⟨p, s, htr, st2, rs, hpend⟩
      subst htr
      rw [List.append_assoc,
        monitor_append cfg p (List.replicate 10 PollStep.err ++ s) ⟨seen, 0⟩, hpend]
      have h9 : st2.errs ≤ 9 :=
        monitor_pending_errs cfg p ⟨seen, 0⟩ st2 rs (by simp) hpend
      have hfatal := monitor_fatal_of_errs cfg 10 st2 s h9 (by omega)
      dsimp only
      rw [hfatal]
  · intro cfg st tr
    exact monitor_erase cfg tr st

/-- Witness for C8: ten consecutive failing iterations from a fresh session
produce the fatal outcome. -/
theorem c8_error_ceiling_witness :
    (monitorChatMessages ⟨"Friday BOT".toList, "hello".toList⟩ ⟨[], 0⟩
      (List.replicate 10 PollStep.err)).1 = MonitorOutcome.fatal :=
  (c8_error_ceiling.1 ⟨"Friday BOT".toList, "hello".toList⟩ []
      (List.replicate 10 PollStep.err)).mpr
    ⟨[], [], by simp, ⟨[], 0⟩, [], rfl⟩

/-- C1, counterexample: with every stage succeeding, monitoring enabled and
ending in the fatal monitoring-failed error, and the page still open, the
workflow takes the catch path — it captures the failure screenshot and
re-raises the error WITHOUT attempting the leave sequence, refuting the
claim that the Left stage runs before the error surfaces. -/
theorem c1_leave_on_fatal_counterexample :
    joinAndChat ⟨true, true, true, true, true, true, MonitorEnd.endFatal, true, false⟩ =
      ([WKStage.navigated, WKStage.cookiesHandled, WKStage.surfaceResolved,
        WKStage.nameFilled, WKStage.joinSubmitted, WKStage.admissionDone,
        WKStage.chatMessageSent, WKStage.monitorRan, WKStage.failureScreenshot],
        some WKError.monitorFatalError) ∧
    WKStage.leaveAttempted ∉
      (joinAndChat
        ⟨true, true, true, true, true, true, MonitorEnd.endFatal, true, false⟩).1 :=
  ⟨by decide, by decide⟩

/-- C1 (amended): when ChatMonitorLoop ends by propagating its fatal error
in a run whose earlier stages all succeeded, joinAndChat does NOT attempt
the leave sequence: the monitor error is re-raised to the caller, preceded
only by the best-effort failure screenshot when the page is still open;
the leave stage is attempted exactly when monitoring returns normally. -/
theorem c1_no_leave_on_fatal (env : WorkflowEnv)
    (hnav : env.navOk = true) (hname : env.nameOk = true) (hjoin : env.joinOk = true)
    (hadm : env.admissionOk = true) (hsend : env.sendOk = true)
    (hmon : env.monitorEnabled = true) :
    (env.monitorEnd = MonitorEnd.endFatal →
      WKStage.leaveAttempted ∉ (joinAndChat env).1 ∧
      (joinAndChat env).2 = some WKError.monitorFatalError) ∧
    (env.monitorEnd = MonitorEnd.endQuit →
      WKStage.leaveAttempted ∈ (joinAndChat env).1) := by
  obtain ⟨nav, nm, jn, adm, snd, mon, me, lv, pc⟩ := env
  simp only at hnav hname hjoin hadm hsend hmon
  subst hnav
  subst hname
  subst hjoin
  subst hadm
  subst hsend
  subst hmon
  constructor
  · intro hme
    simp only at hme
    subst hme
    cases lv <;> cases pc <;> exact ⟨by decide, by decide⟩
  · intro hme
    simp only at hme
    subst hme
    cases lv <;> cases pc <;> decide

/-- Witness for the amended C1: fatal monitor end with the page closed at
failure time — no leave attempt, the monitor error surfaces. -/
theorem c1_no_leave_on_fatal_witness :
    WKStage.leaveAttempted ∉
      (joinAndChat
        ⟨true, true, true, true, true, true, MonitorEnd.endFatal, true, true⟩).1 ∧
    (joinAndChat
      ⟨true, true, true, true, true, true, MonitorEnd.endFatal, true, true⟩).2 =
      some WKError.monitorFatalError :=
  (c1_no_leave_on_fatal
    ⟨true, true, true, true, true, true, MonitorEnd.endFatal, true, true⟩
    rfl rfl rfl rfl rfl rfl).1 rfl

/-- C9, counterexample: the initial overlay-count query runs outside every
catch handler; when the surface rejects it, dismissBlockingModals
propagates the failure to its caller, refuting the claim that an
invocation never raises. -/
theorem c9_modal_dismissal_counterexample :
    (dismissBlockingModals ⟨none, [], true, true, none, true, true⟩).2 =
      some ModalError.surfaceFailure := rfl

/-- C9 (amended): when the initial overlay count is zero,
dismissBlockingModals returns immediately with no dismiss click, escape
press or structural removal attempted.  In general the call returns
normally exactly when its four uncaught surface calls succeed along the
path taken: the initial count query, and — when that count is positive —
the settle wait, the second count query, and, when overlays remain, the
post-removal wait.  Failures of the dismiss clicks, the escape press and
the structural removal are swallowed and cannot influence the result. -/
theorem c9_modal_dismissal (env : ModalEnv) :
    (env.initialCount = some 0 → dismissBlockingModals env = ([], none)) ∧
    ((dismissBlockingModals env).2 = none ↔
      (env.initialCount = some 0 ∨
        ∃ n, env.initialCount = some (n + 1) ∧ env.settleWaitOk = true ∧
          (env.remainingCount = some 0 ∨
            ∃ m, env.remainingCount = some (m + 1) ∧ env.removalWaitOk = true))) ∧
    (∀ (clicks : List Bool) (esc rmv : Bool),
      dismissBlockingModals
        ⟨env.initialCount, clicks, esc, env.settleWaitOk, env.remainingCount, rmv,
          env.removalWaitOk⟩ =
        dismissBlockingModals env) := by
  obtain ⟨ic, cl, es, sw, rc, rv, lw⟩ := env
  refine ⟨fun h0 => ?_, ?_, fun clicks esc rmv => ?_⟩
  · dsimp only at h0
    subst h0
    rfl
  · cases ic with
    | none => simp [dismissBlockingModals]
    | some n =>
      cases n with
      | zero => simp [dismissBlockingModals]
      | succ k =>
        cases sw with
        | false => simp [dismissBlockingModals]
        | true =>
          cases rc with
          | none => simp [dismissBlockingModals]
          | some m =>
            cases m with
            | zero => simp [dismissBlockingModals]
            | succ j =>
              cases lw with
              | false => simp [dismissBlockingModals]
              | true => simp [dismissBlockingModals]
  · cases ic with
    | none => rfl
    | some n =>
      cases n with
      | zero => rfl
      | succ k =>
        cases sw with
        | false => rfl
        | true =>
          cases rc with
          | none => rfl
          | some m =>
            cases m with
            | zero => rfl
            | succ j =>
              cases lw with
              | false => rfl
              | true => rfl

/-- Witness for the amended C9: zero initial overlays return immediately
with no action, for arbitrary failing click/escape/removal oracles (the
two settle waits are not reached on this path and may fail as well). -/
theorem c9_modal_dismissal_witness :
    dismissBlockingModals ⟨some 0, [false, false], false, false, some 3, false, false⟩ =
      ([], none) :=
  (c9_modal_dismissal ⟨some 0, [false, false], false, false, some 3, false, false⟩).1 rfl

end ZoomRunner
